import Mathlib

/-!
Shallow embedding of the gameplay-simulation core of `arpg-engine-browser`
(`src/entities/Player.ts`, `src/entities/Enemy.ts`,
`src/systems/InventorySystem.ts`, `src/systems/CombatSystem.ts`).

JavaScript numbers are modelled as rationals (all arithmetic performed by the
embedded code is exact rational arithmetic: additions, subtractions,
multiplications, divisions, `Math.min` / `Math.max`).  `Date.now()` timestamps
are rationals supplied as explicit parameters.  `Math.sqrt`, used only to
normalise movement direction vectors, is kept abstract: movement functions
take a parameter `rt : ℚ → ℚ` standing for the square root; it is always
applied to the squared length of the direction vector.  Comparisons of a
Euclidean length against a non-negative bound are translated to the equivalent
comparison of squares (for `a, b ≥ 0`, `a ≤ b ↔ a^2 ≤ b^2`), which is exact
and independent of `rt`.

Rendering-only state (Three.js meshes, health bars, rotation of the mesh,
colors, particle effects, `console.log`) is not part of the simulation state;
the only rendering fact that feeds back into the simulation is whether the
entity's mesh exists (`this.mesh` guards in the `update` methods), kept as a
boolean `hasMesh`.
-/

/-- A 3-component vector, the simulation-relevant part of `THREE.Vector3`. -/
structure Vec3 where
  x : ℚ
  y : ℚ
  z : ℚ
deriving DecidableEq, Repr

/-- Component-wise vector difference (`THREE.Vector3.sub`). -/
def Vec3.sub (a b : Vec3) : Vec3 := ⟨a.x - b.x, a.y - b.y, a.z - b.z⟩

/-- Component-wise vector sum (`THREE.Vector3.add`). -/
def Vec3.add (a b : Vec3) : Vec3 := ⟨a.x + b.x, a.y + b.y, a.z + b.z⟩

/-- Scalar multiple (`THREE.Vector3.multiplyScalar`). -/
def Vec3.scale (c : ℚ) (a : Vec3) : Vec3 := ⟨c * a.x, c * a.y, c * a.z⟩

/-- Squared Euclidean length. `THREE.Vector3.length` is `rt (normSq v)` for the
square-root oracle `rt`. -/
def Vec3.normSq (a : Vec3) : ℚ := a.x ^ 2 + a.y ^ 2 + a.z ^ 2

/-- Squared distance; `THREE.Vector3.distanceTo a b` is its square root. -/
def distSq (a b : Vec3) : ℚ := Vec3.normSq (Vec3.sub a b)

/-- `src/entities/Player.ts`, class `Player`: simulation fields.
`mesh` is reduced to `hasMesh` (whether `init` has attached a mesh); `moveSpeed`
is the constant `3.0` (`playerMoveSpeed` below). -/
structure Player where
  position : Vec3
  targetPosition : Vec3
  isMoving : Bool
  hasMesh : Bool
  level : ℤ
  health : ℚ
  maxHealth : ℚ
  experience : ℚ
deriving DecidableEq, Repr

/-- `Player.moveSpeed`, initialised to `3.0` and never written. -/
def playerMoveSpeed : ℚ := 3

/-- The `Player` constructor state, with `hasMesh := true` standing for a
player on which `init(scene)` has been called (the game calls `init` once at
scene setup before any update). -/
def initialPlayer : Player :=
  { position := ⟨0, 0, 0⟩
  , targetPosition := ⟨0, 0, 0⟩
  , isMoving := false
  , hasMesh := true
  , level := 1
  , health := 100
  , maxHealth := 100
  , experience := 0 }

/-- `Player.takeDamage`: `this.health = Math.max(0, this.health - damage)`. -/
def playerTakeDamage (damage : ℚ) (p : Player) : Player :=
  { p with health := max 0 (p.health - damage) }

/-- `Player.heal`: `this.health = Math.min(this.maxHealth, this.health + amount)`. -/
def playerHeal (amount : ℚ) (p : Player) : Player :=
  { p with health := min p.maxHealth (p.health + amount) }

/-- `Player.levelUp`: increment level, zero the experience counter, raise
`maxHealth` by 20 and refill health to the new maximum. -/
def levelUp (p : Player) : Player :=
  { p with
      level := p.level + 1
    , experience := 0
    , maxHealth := p.maxHealth + 20
    , health := p.maxHealth + 20 }

/-- `expNeededForNextLevel` as computed inside `Player.gainExperience`:
`this.level * 100`. -/
def expNeeded (p : Player) : ℚ := (p.level : ℚ) * 100

/-- `Player.gainExperience`: add the amount, then level up once if the counter
reached `level * 100` (a single `if`, not a loop). -/
def gainExperience (amount : ℚ) (p : Player) : Player :=
  let p1 := { p with experience := p.experience + amount }
  if expNeeded p1 ≤ p1.experience then levelUp p1 else p1

/-- `Player.moveTo`: copy the target, force its `y` to `0`
(`this.targetPosition.y = 0`), start moving. -/
def moveTo (target : Vec3) (p : Player) : Player :=
  { p with targetPosition := ⟨target.x, 0, target.z⟩, isMoving := true }

/-- `Player.update(deltaTime)`: straight-line movement toward
`targetPosition`.  `rt` is the square-root oracle (`Math.sqrt`), applied to the
squared length of the direction vector.  The source's comparisons of the
(non-negative) length `distance` are translated to squared comparisons:
`distance < 0.1` becomes `dsq < 1/100`, and `moveDistance >= distance` becomes
`0 ≤ moveDistance ∧ dsq ≤ moveDistance^2`. -/
def playerUpdate (rt : ℚ → ℚ) (deltaTime : ℚ) (p : Player) : Player :=
  if p.isMoving ∧ p.hasMesh then
    let direction := Vec3.sub p.targetPosition p.position
    let dsq := Vec3.normSq direction
    if dsq < 1 / 100 then
      { p with isMoving := false, position := p.targetPosition }
    else
      let moveDistance := playerMoveSpeed * deltaTime
      if 0 ≤ moveDistance ∧ dsq ≤ moveDistance ^ 2 then
        { p with position := p.targetPosition, isMoving := false }
      else
        { p with position :=
            Vec3.add p.position (Vec3.scale (moveDistance / rt dsq) direction) }
  else p

/-- `src/entities/Enemy.ts`, class `Enemy`: simulation fields.  The fields
`attackDamage = 10`, `detectionRange = 5`, `attackRange = 2`,
`moveSpeed = 1.5` and `attackCooldown = 2000` are initialised once and never
written, so they are modelled as the constants below. -/
structure Enemy where
  position : Vec3
  health : ℚ
  maxHealth : ℚ
  isAlive : Bool
  targetPosition : Vec3
  isMoving : Bool
  lastAttackTime : ℚ
  hasMesh : Bool
deriving DecidableEq, Repr

/-- `Enemy.attackDamage`. -/
def enemyAttackDamage : ℚ := 10

/-- `Enemy.detectionRange`. -/
def enemyDetectionRange : ℚ := 5

/-- `Enemy.attackRange`. -/
def enemyAttackRange : ℚ := 2

/-- `Enemy.moveSpeed`. -/
def enemyMoveSpeed : ℚ := 3 / 2

/-- `Enemy.attackCooldown` (milliseconds). -/
def enemyAttackCooldown : ℚ := 2000

/-- The `Enemy` constructor at a spawn position (health 50/50, alive,
`lastAttackTime = 0`, target = own position, not moving); `hasMesh := true`
stands for an enemy on which `init(scene)` has been called, which
`CombatSystem.spawnEnemies` does immediately after construction. -/
def mkEnemy (pos : Vec3) : Enemy :=
  { position := pos
  , health := 50
  , maxHealth := 50
  , isAlive := true
  , targetPosition := pos
  , isMoving := false
  , lastAttackTime := 0
  , hasMesh := true }

/-- `Enemy.takeDamage`: clamp health at zero, then `die()` (clear the alive
flag) if the clamped health is `≤ 0`.  `die` also detaches the mesh from its
parent scene but leaves `this.mesh` itself set, so `hasMesh` is unchanged. -/
def enemyTakeDamage (damage : ℚ) (e : Enemy) : Enemy :=
  let h := max 0 (e.health - damage)
  if h ≤ 0 then { e with health := h, isAlive := false }
  else { e with health := h }

/-- C1 counterexample helper state: a player at 10/100 health. -/
def hurtPlayer : Player := { initialPlayer with health := 10 }

/-- C1 (counterexample): `Player.heal` with the negative request `-50` on a
player at `10/100` health leaves current health at `-40`, outside `[0, 100]`,
and is not a no-op — refuting the claim that every stat mutation stays inside
`[0, maximum]` and that a negative request removes or adds nothing. -/
theorem heal_negative_escapes_bounds :
    (playerHeal (-50) hurtPlayer).health = -40 ∧
    ¬ (0 ≤ (playerHeal (-50) hurtPlayer).health) ∧
    (playerHeal (-50) hurtPlayer).health ≠ hurtPlayer.health := by
  refine ⟨?_, ?_, ?_⟩ <;> norm_num [playerHeal, hurtPlayer, initialPlayer]

/-- C5: for the freshly constructed player (level 1, experience 0, threshold
`1 * 100 = 100`), `gainExperience(250)` yields level 2 with experience reset to
0 (the 150 of remainder is discarded), `maxHealth` grown by the fixed increment
20 to 120, health refilled to the new maximum, and the next threshold
recomputed as `level * 100 = 200`. -/
theorem gainExperience_250_levels_once :
    gainExperience 250 initialPlayer =
      { initialPlayer with
          level := 2, experience := 0, maxHealth := 120, health := 120 } ∧
    expNeeded (gainExperience 250 initialPlayer) = 200 := by
  constructor <;> norm_num [gainExperience, expNeeded, levelUp, initialPlayer]

/-- C1 (amended): for non-negative requested amounts, `Player.takeDamage`,
`Player.heal` and `Enemy.takeDamage` keep current health within
`[0, maximum]` (starting from a state inside the bounds), and a zero request
is a no-op; negative requests are not guarded by the code and are applied with
reversed sign (see the counterexample), so they are excluded here. -/
theorem statPool_bounds (p : Player) (e : Enemy) (d a : ℚ)
    (hp0 : 0 ≤ p.health) (hp1 : p.health ≤ p.maxHealth)
    (he0 : 0 ≤ e.health) (he1 : e.health ≤ e.maxHealth) :
    (0 ≤ d → 0 ≤ (playerTakeDamage d p).health ∧
      (playerTakeDamage d p).health ≤ (playerTakeDamage d p).maxHealth) ∧
    (0 ≤ a → 0 ≤ (playerHeal a p).health ∧
      (playerHeal a p).health ≤ (playerHeal a p).maxHealth) ∧
    (0 ≤ d → 0 ≤ (enemyTakeDamage d e).health ∧
      (enemyTakeDamage d e).health ≤ (enemyTakeDamage d e).maxHealth) ∧
    playerTakeDamage 0 p = p ∧
    playerHeal 0 p = p ∧
    (enemyTakeDamage 0 e).health = e.health := by
  have hpm : (0 : ℚ) ≤ p.maxHealth := hp0.trans hp1
  have hem : (0 : ℚ) ≤ e.maxHealth := he0.trans he1
  refine ⟨fun hd => ⟨le_max_left _ _, ?_⟩, fun ha => ⟨?_, ?_⟩, fun hd => ?_, ?_, ?_, ?_⟩
  · simp only [playerTakeDamage]
    exact max_le hpm ((sub_le_self _ hd).trans hp1)
  · simp only [playerHeal]
    exact le_min hpm (add_nonneg hp0 ha)
  · simp only [playerHeal]
    exact min_le_left _ _
  · simp only [enemyTakeDamage]
    split <;>
      simp only [] <;>
      exact ⟨le_max_left _ _, max_le hem ((sub_le_self _ hd).trans he1)⟩
  · simp [playerTakeDamage, max_eq_right hp0]
  · simp [playerHeal, min_eq_right hp1]
  · simp only [enemyTakeDamage, sub_zero, max_eq_right he0]
    split <;> rfl

/-- Witness for `statPool_bounds` at concrete inputs. -/
theorem statPool_bounds_witness :
    0 ≤ (playerTakeDamage 5 initialPlayer).health ∧
    (playerHeal 7 initialPlayer).health ≤ (playerHeal 7 initialPlayer).maxHealth ∧
    (enemyTakeDamage 3 (mkEnemy ⟨0, 0, 0⟩)).health ≤
      (enemyTakeDamage 3 (mkEnemy ⟨0, 0, 0⟩)).maxHealth ∧
    playerTakeDamage 0 initialPlayer = initialPlayer := by
  have h := statPool_bounds initialPlayer (mkEnemy ⟨0, 0, 0⟩) 5 7
    (by norm_num [initialPlayer]) (by norm_num [initialPlayer])
    (by norm_num [mkEnemy]) (by norm_num [mkEnemy])
  have h3 := statPool_bounds initialPlayer (mkEnemy ⟨0, 0, 0⟩) 3 7
    (by norm_num [initialPlayer]) (by norm_num [initialPlayer])
    (by norm_num [mkEnemy]) (by norm_num [mkEnemy])
  exact ⟨(h.1 (by norm_num)).1, (h.2.1 (by norm_num)).2,
    (h3.2.2.1 (by norm_num)).2, h.2.2.2.1⟩

/-- The movement block at the end of `Enemy.update` (lines 124–147): while
`isMoving`, advance toward `targetPosition` at `moveSpeed * deltaTime`; stop
(without snapping) when closer than `0.1`; snap to the target when the frame
travel distance reaches the remaining distance.  Squared-length comparisons as
in `playerUpdate`. -/
def enemyMove (rt : ℚ → ℚ) (deltaTime : ℚ) (e : Enemy) : Enemy :=
  if e.isMoving then
    let direction := Vec3.sub e.targetPosition e.position
    let dsq := Vec3.normSq direction
    if dsq < 1 / 100 then { e with isMoving := false }
    else
      let moveDistance := enemyMoveSpeed * deltaTime
      if 0 ≤ moveDistance ∧ dsq ≤ moveDistance ^ 2 then
        { e with position := e.targetPosition, isMoving := false }
      else
        { e with position :=
            Vec3.add e.position (Vec3.scale (moveDistance / rt dsq) direction) }
  else e

/-- `Enemy.update(deltaTime, player)`: nothing happens if the enemy is dead or
has no mesh; otherwise the AI branch runs first — attack the player when the
distance is at most `attackRange` (the attack itself is gated by the 2000 ms
cooldown, `attackPlayer`), else chase when at most `detectionRange`, else
nothing — and then the movement block runs on the resulting state.  `now` is
the `Date.now()` timestamp read inside `attackPlayer`. -/
def enemyUpdate (rt : ℚ → ℚ) (deltaTime now : ℚ) (e : Enemy) (p : Player) :
    Enemy × Player :=
  if e.isAlive ∧ e.hasMesh then
    let dsqP := distSq e.position p.position
    if dsqP ≤ enemyAttackRange ^ 2 then
      if enemyAttackCooldown ≤ now - e.lastAttackTime then
        (enemyMove rt deltaTime { e with lastAttackTime := now },
          playerTakeDamage enemyAttackDamage p)
      else (enemyMove rt deltaTime e, p)
    else if dsqP ≤ enemyDetectionRange ^ 2 then
      (enemyMove rt deltaTime
        { e with targetPosition := p.position, isMoving := true }, p)
    else (enemyMove rt deltaTime e, p)
  else (e, p)

/-- A square-root oracle that returns `1`; it agrees with `Math.sqrt` on the
input `1`, the only squared length at which the concrete theorems below apply
it. -/
def rtOne : ℚ → ℚ := fun _ => 1

/-- Fields of the enemy untouched by the movement block. -/
theorem enemyMove_fields (rt : ℚ → ℚ) (dt : ℚ) (e : Enemy) :
    (enemyMove rt dt e).targetPosition = e.targetPosition ∧
    (enemyMove rt dt e).lastAttackTime = e.lastAttackTime ∧
    (enemyMove rt dt e).health = e.health ∧
    (enemyMove rt dt e).isAlive = e.isAlive := by
  simp only [enemyMove]
  split
  · split
    · exact ⟨rfl, rfl, rfl, rfl⟩
    · split <;> exact ⟨rfl, rfl, rfl, rfl⟩
  · exact ⟨rfl, rfl, rfl, rfl⟩

/-- A non-moving enemy is unchanged by the movement block. -/
theorem enemyMove_of_not_moving (rt : ℚ → ℚ) (dt : ℚ) (e : Enemy)
    (h : e.isMoving = false) : enemyMove rt dt e = e := by
  simp [enemyMove, h]

/-- An enemy that is still finishing an earlier chase: at the origin, moving
toward the stale target `(1, 0, 0)`. -/
def movingEnemy : Enemy :=
  { mkEnemy ⟨0, 0, 0⟩ with targetPosition := ⟨1, 0, 0⟩, isMoving := true }

/-- A player standing at `(10, 0, 0)`, far beyond the detection range. -/
def farPlayer : Player := { initialPlayer with position := ⟨10, 0, 0⟩ }

/-- C7 (counterexample): with the player at distance 10 (beyond the detection
range 5) the AI takes no action, but `Enemy.update` still advances the enemy
toward its previously set movement target: the position changes from the
origin to `(0.15, 0, 0)` in a `0.1 s` tick — refuting "Idle performs no
movement".  The square-root oracle is applied only to the squared direction
length `1`, where `rtOne` agrees with `Math.sqrt`. -/
theorem idle_enemy_still_moves :
    enemyDetectionRange ^ 2 < distSq movingEnemy.position farPlayer.position ∧
    (enemyUpdate rtOne (1 / 10) 0 movingEnemy farPlayer).1.position =
      ⟨3 / 20, 0, 0⟩ ∧
    (enemyUpdate rtOne (1 / 10) 0 movingEnemy farPlayer).1.position ≠
      movingEnemy.position := by
  refine ⟨by norm_num [distSq, Vec3.normSq, Vec3.sub, movingEnemy, mkEnemy,
    farPlayer, initialPlayer, enemyDetectionRange], ?_, ?_⟩ <;>
    norm_num [enemyUpdate, enemyMove, distSq, Vec3.normSq, Vec3.sub, Vec3.add,
      Vec3.scale, movingEnemy, mkEnemy, farPlayer, initialPlayer, rtOne,
      enemyDetectionRange, enemyAttackRange, enemyMoveSpeed,
      enemyAttackCooldown]

/-- C7 (amended): per-tick AI bands of `Enemy.update` for a live enemy with a
mesh, in terms of the squared distance `d` to the player.  Beyond the
detection range the enemy makes no combat attempt, acquires no new target and
keeps its cooldown clock, and — when it was not already moving — is entirely
unchanged (residual movement toward a previously set target is the one
exception, see the counterexample).  Strictly between attack range and
detection range it chases (target re-set to the player's live position,
player untouched).  At or below attack range it attacks: the player is damaged
and the cooldown clock reset exactly when the 2000 ms cooldown has elapsed. -/
theorem enemy_ai_bands (rt : ℚ → ℚ) (dt now : ℚ) (e : Enemy) (p : Player)
    (hA : e.isAlive = true) (hM : e.hasMesh = true) :
    (enemyDetectionRange ^ 2 < distSq e.position p.position →
      (enemyUpdate rt dt now e p).2 = p ∧
      (enemyUpdate rt dt now e p).1.targetPosition = e.targetPosition ∧
      (enemyUpdate rt dt now e p).1.lastAttackTime = e.lastAttackTime ∧
      (e.isMoving = false → enemyUpdate rt dt now e p = (e, p))) ∧
    (enemyAttackRange ^ 2 < distSq e.position p.position →
      distSq e.position p.position ≤ enemyDetectionRange ^ 2 →
      (enemyUpdate rt dt now e p).2 = p ∧
      (enemyUpdate rt dt now e p).1.targetPosition = p.position) ∧
    (distSq e.position p.position ≤ enemyAttackRange ^ 2 →
      (enemyUpdate rt dt now e p).1.targetPosition = e.targetPosition ∧
      (enemyAttackCooldown ≤ now - e.lastAttackTime →
        (enemyUpdate rt dt now e p).2 = playerTakeDamage enemyAttackDamage p ∧
        (enemyUpdate rt dt now e p).1.lastAttackTime = now) ∧
      (¬ enemyAttackCooldown ≤ now - e.lastAttackTime →
        (enemyUpdate rt dt now e p).2 = p ∧
        (enemyUpdate rt dt now e p).1.lastAttackTime = e.lastAttackTime)) := by
  have hguard : e.isAlive = true ∧ e.hasMesh = true := ⟨hA, hM⟩
  refine ⟨fun hFar => ?_, fun hMid1 hMid2 => ?_, fun hNear => ?_⟩
  · have hn1 : ¬ distSq e.position p.position ≤ enemyAttackRange ^ 2 := by
      have : enemyAttackRange ^ 2 ≤ enemyDetectionRange ^ 2 := by
        norm_num [enemyAttackRange, enemyDetectionRange]
      linarith
    have hn2 : ¬ distSq e.position p.position ≤ enemyDetectionRange ^ 2 := by
      linarith
    simp only [enemyUpdate]
    rw [if_pos hguard, if_neg hn1, if_neg hn2]
    exact ⟨rfl, (enemyMove_fields rt dt e).1, (enemyMove_fields rt dt e).2.1,
      fun hmv => by rw [enemyMove_of_not_moving rt dt e hmv]⟩
  · have hn1 : ¬ distSq e.position p.position ≤ enemyAttackRange ^ 2 := by
      linarith
    simp only [enemyUpdate]
    rw [if_pos hguard, if_neg hn1, if_pos hMid2]
    exact ⟨rfl,
      (enemyMove_fields rt dt
        { e with targetPosition := p.position, isMoving := true }).1⟩
  · simp only [enemyUpdate]
    rw [if_pos hguard, if_pos hNear]
    refine ⟨?_, fun hcd => ?_, fun hcd => ?_⟩
    · split
      · exact (enemyMove_fields rt dt { e with lastAttackTime := now }).1
      · exact (enemyMove_fields rt dt e).1
    · rw [if_pos hcd]
      exact ⟨rfl,
        (enemyMove_fields rt dt { e with lastAttackTime := now }).2.1⟩
    · rw [if_neg hcd]
      exact ⟨rfl, (enemyMove_fields rt dt e).2.1⟩

/-- Witness for `enemy_ai_bands`: a freshly spawned (stationary) enemy at the
origin with the player 10 units away is left entirely unchanged, and a player
2.5 units away (squared distance 6.25, between the bands) is chased. -/
theorem enemy_ai_bands_witness :
    enemyUpdate rtOne 1 0 (mkEnemy ⟨0, 0, 0⟩) farPlayer =
      (mkEnemy ⟨0, 0, 0⟩, farPlayer) ∧
    (enemyUpdate rtOne 1 0 (mkEnemy ⟨0, 0, 0⟩)
        { initialPlayer with position := ⟨5 / 2, 0, 0⟩ }).1.targetPosition =
      ⟨5 / 2, 0, 0⟩ := by
  constructor
  · exact ((enemy_ai_bands rtOne 1 0 (mkEnemy ⟨0, 0, 0⟩) farPlayer rfl
      rfl).1 (by norm_num [distSq, Vec3.normSq, Vec3.sub, mkEnemy, farPlayer,
        initialPlayer, enemyDetectionRange])).2.2.2 rfl
  · exact ((enemy_ai_bands rtOne 1 0 (mkEnemy ⟨0, 0, 0⟩)
      { initialPlayer with position := ⟨5 / 2, 0, 0⟩ } rfl rfl).2.1
      (by norm_num [distSq, Vec3.normSq, Vec3.sub, mkEnemy, initialPlayer,
        enemyAttackRange])
      (by norm_num [distSq, Vec3.normSq, Vec3.sub, mkEnemy, initialPlayer,
        enemyDetectionRange])).2

/-- The operations the rest of the game performs on a single enemy: a frame
update (`CombatSystem.update` → `Enemy.update`) or a hit from the player
(`Enemy.takeDamage`). -/
inductive EnemyOp where
  | upd (dt now : ℚ)
  | dmg (d : ℚ)
deriving DecidableEq, Repr

/-- Apply one `EnemyOp` to an (enemy, player) pair. -/
def applyEnemyOp (rt : ℚ → ℚ) (s : Enemy × Player) : EnemyOp → Enemy × Player
  | .upd dt now => enemyUpdate rt dt now s.1 s.2
  | .dmg d => (enemyTakeDamage d s.1, s.2)

/-- Run a sequence of enemy operations. -/
def runEnemyOps (rt : ℚ → ℚ) : Enemy × Player → List EnemyOp → Enemy × Player
  | s, [] => s
  | s, op :: ops => runEnemyOps rt (applyEnemyOp rt s op) ops

/-- Dead enemies are not resurrected by `Enemy.takeDamage`. -/
theorem enemyTakeDamage_preserves_dead (d : ℚ) (e : Enemy)
    (h : e.isAlive = false) : (enemyTakeDamage d e).isAlive = false := by
  simp only [enemyTakeDamage]
  split
  · rfl
  · exact h

/-- `Enemy.update` on a dead enemy is the identity on enemy and player. -/
theorem enemyUpdate_dead (rt : ℚ → ℚ) (dt now : ℚ) (e : Enemy) (p : Player)
    (h : e.isAlive = false) : enemyUpdate rt dt now e p = (e, p) := by
  simp only [enemyUpdate]
  rw [if_neg]
  simp [h]

/-- C9: once an enemy's health has reached zero its alive flag is false
(`Enemy.takeDamage` calls `die()` exactly when the clamped health is `≤ 0`),
the flag stays false across every further sequence of updates and hits, and
each `Enemy.update` on a dead enemy is completely inert: the enemy (position,
health, everything) and the player are both returned unchanged. -/
theorem dead_enemy_stays_dead (rt : ℚ → ℚ) (e : Enemy) (p : Player)
    (ops : List EnemyOp) (h : e.isAlive = false) :
    (∀ d e', (enemyTakeDamage d e').health = 0 →
      (enemyTakeDamage d e').isAlive = false) ∧
    (∀ dt now, enemyUpdate rt dt now e p = (e, p)) ∧
    (runEnemyOps rt (e, p) ops).1.isAlive = false := by
  refine ⟨fun d e' h0 => ?_, fun dt now => enemyUpdate_dead rt dt now e p h, ?_⟩
  · simp only [enemyTakeDamage] at h0 ⊢
    split
    · rfl
    · rename_i hpos
      exfalso
      rw [if_neg hpos] at h0
      simp only [Enemy.health] at h0
      exact hpos (le_of_eq h0)
  · induction ops generalizing e p with
    | nil => exact h
    | cons op ops ih =>
      cases op with
      | upd dt now =>
        simp only [runEnemyOps, applyEnemyOp, enemyUpdate_dead rt dt now e p h]
        exact ih e p h
      | dmg d =>
        simp only [runEnemyOps, applyEnemyOp]
        exact ih _ p (enemyTakeDamage_preserves_dead d e h)

/-- A dead enemy used by the witness below. -/
def deadEnemy : Enemy := { mkEnemy ⟨0, 0, 0⟩ with isAlive := false, health := 0 }

/-- Witness for `dead_enemy_stays_dead` on a concrete dead enemy, a hit
followed by two updates. -/
theorem dead_enemy_stays_dead_witness :
    enemyUpdate rtOne 1 100 deadEnemy initialPlayer = (deadEnemy, initialPlayer) ∧
    (runEnemyOps rtOne (deadEnemy, initialPlayer)
      [.dmg 5, .upd 1 100, .upd 1 200]).1.isAlive = false := by
  have h := dead_enemy_stays_dead rtOne deadEnemy initialPlayer
    [.dmg 5, .upd 1 100, .upd 1 200] rfl
  exact ⟨h.2.1 1 100, h.2.2⟩

/-- The operations the game performs on the player's movement state: a click
(`Player.moveTo`, with an arbitrary clicked world point) or a frame update
(`Player.update`). -/
inductive PlayerOp where
  | move (v : Vec3)
  | upd (dt : ℚ)
deriving DecidableEq, Repr

/-- Apply one `PlayerOp`. -/
def applyPlayerOp (rt : ℚ → ℚ) (p : Player) : PlayerOp → Player
  | .move v => moveTo v p
  | .upd dt => playerUpdate rt dt p

/-- Run a sequence of player operations. -/
def runPlayerOps (rt : ℚ → ℚ) : Player → List PlayerOp → Player
  | p, [] => p
  | p, op :: ops => runPlayerOps rt (applyPlayerOp rt p op) ops

/-- One step preserves "position and target are on the ground plane". -/
theorem applyPlayerOp_ground (rt : ℚ → ℚ) (p : Player) (op : PlayerOp)
    (h1 : p.position.y = 0) (h2 : p.targetPosition.y = 0) :
    (applyPlayerOp rt p op).position.y = 0 ∧
    (applyPlayerOp rt p op).targetPosition.y = 0 := by
  cases op with
  | move v => exact ⟨h1, rfl⟩
  | upd dt =>
    simp only [applyPlayerOp, playerUpdate]
    split
    · split
      · exact ⟨h2, h2⟩
      · split
        · exact ⟨h2, h2⟩
        · refine ⟨?_, h2⟩
          simp [Vec3.add, Vec3.scale, Vec3.sub, h1, h2]
    · exact ⟨h1, h2⟩

/-- C10: starting from the freshly constructed player at `(0, 0, 0)`, any
sequence of `moveTo` clicks and `update` ticks leaves the player's `y`
coordinate exactly `0`: `moveTo` forces the target's `y` to `0` and movement
only interpolates between the current position and that target.  The result
holds for every square-root oracle `rt`, hence in particular for the true
`Math.sqrt`. -/
theorem player_stays_on_ground (rt : ℚ → ℚ) (ops : List PlayerOp) :
    (runPlayerOps rt initialPlayer ops).position.y = 0 := by
  suffices h : ∀ p : Player, p.position.y = 0 → p.targetPosition.y = 0 →
      (runPlayerOps rt p ops).position.y = 0 ∧
      (runPlayerOps rt p ops).targetPosition.y = 0 by
    exact (h initialPlayer rfl rfl).1
  induction ops with
  | nil => exact fun p h1 h2 => ⟨h1, h2⟩
  | cons op ops ih =>
    intro p h1 h2
    have hstep := applyPlayerOp_ground rt p op h1 h2
    exact ih (applyPlayerOp rt p op) hstep.1 hstep.2

/-- `src/systems/InventorySystem.ts`, interface `Item`: the fields consulted by
the inventory engine.  `name`, `type`, `rarity`, `level`, `stats`,
`description` and `icon` are display-only (read by the UI collaborator, never
by `InventorySystem`) and are omitted.  `stackSize` is optional in the source
(`stackSize?: number`). -/
structure Item where
  id : String
  stackSize : Option ℤ
  value : ℤ
deriving DecidableEq, Repr

/-- `InventorySlot`: `item` is `null` or an item snapshot; quantities are
integers (the engine only ever adds, subtracts and takes `min` of integers). -/
structure InventorySlot where
  item : Option Item
  quantity : ℤ
  slotId : ℤ
deriving DecidableEq, Repr

/-- `InventorySystem.maxSlots`. -/
def invMaxSlots : ℕ := 40

/-- `initializeSlots`: 40 empty slots with ids `0..39`. -/
def initInventory : List InventorySlot :=
  (List.range invMaxSlots).map (fun i => ⟨none, 0, (i : ℤ)⟩)

/-- JavaScript truthiness of the optional `stackSize` (`undefined` and `0` are
falsy). -/
def stackTruthy : Option ℤ → Bool
  | some s => s ≠ 0
  | none => false

/-- `item.stackSize || 1` from `addItem`'s empty-slot placement. -/
def stackOr1 : Option ℤ → ℤ
  | some s => if s = 0 then 1 else s
  | none => 1

/-- `item.stackSize && item.stackSize > 1` from `addItem`. -/
def isStackable (it : Item) : Bool :=
  match it.stackSize with
  | some s => s ≠ 0 ∧ 1 < s
  | none => false

/-- The predicate of `addItem`'s `slots.find`:
`slot.item && slot.item.id === item.id && slot.quantity < item.stackSize!`. -/
def slotMatches (itemId : String) (s : ℤ) (slot : InventorySlot) : Bool :=
  match slot.item with
  | some it => it.id = itemId ∧ slot.quantity < s
  | none => false

/-- The `slots.find(...)`-and-top-up step of `addItem` for a stackable item
with stack size `s`: locate the first slot holding the same item id with
`quantity < s`, add `canAdd = min(quantity, s - slot.quantity)` to it.
Returns the updated slots, the remaining quantity, and whether a slot was
found. -/
def topUp (itemId : String) (s : ℤ) (q : ℤ) :
    List InventorySlot → List InventorySlot × ℤ × Bool
  | [] => ([], q, false)
  | slot :: rest =>
    if slotMatches itemId s slot then
      let canAdd := min q (s - slot.quantity)
      ({ slot with quantity := slot.quantity + canAdd } :: rest, q - canAdd, true)
    else
      let r := topUp itemId s q rest
      (slot :: r.1, r.2.1, r.2.2)

/-- The `slots.find(slot => slot.item === null)` placement step of `addItem`:
put `min(quantity, stackSize || 1)` units of a copy of the item into the first
empty slot, if any. -/
def placeEmpty (it : Item) (q : ℤ) :
    List InventorySlot → Option (List InventorySlot)
  | [] => none
  | slot :: rest =>
    if slot.item = none then
      some ({ slot with
                item := some it
                quantity := min q (stackOr1 it.stackSize) } :: rest)
    else (placeEmpty it q rest).map (slot :: ·)

/-- The tail of `addItem` after the stacking step: mutate the first empty slot
only when one exists and quantity remains positive (`emptySlot && quantity >
0`), notifying once; otherwise report failure with no notification.  Results
are `(returned boolean, final slots, number of notifications fired)`. -/
def addPlace (it : Item) (q : ℤ) (inv : List InventorySlot) :
    Bool × List InventorySlot × ℕ :=
  match placeEmpty it q inv with
  | some inv2 => if 0 < q then (true, inv2, 1) else (false, inv, 0)
  | none => (false, inv, 0)

/-- `InventorySystem.addItem(item, quantity)`: for a stackable item first top
up one existing stack (returning success immediately if nothing remains),
then place the remainder into the first empty slot.  The returned triple is
`(returned boolean, final slots, number of notifyInventoryChanged calls)`. -/
def addItem (inv : List InventorySlot) (it : Item) (q : ℤ) :
    Bool × List InventorySlot × ℕ :=
  match it.stackSize with
  | some s =>
    if s ≠ 0 ∧ 1 < s then
      let t := topUp it.id s q inv
      if t.2.2 = true ∧ t.2.1 ≤ 0 then (true, t.1, 1)
      else addPlace it t.2.1 t.1
    else addPlace it q inv
  | none => addPlace it q inv

/-- `this.slots[i]` under a JavaScript index read: `undefined` (here `none`)
for a negative or out-of-range index. -/
def getSlot? (inv : List InventorySlot) (i : ℤ) : Option InventorySlot :=
  if h : 0 ≤ i ∧ i.toNat < inv.length then some (inv.get ⟨i.toNat, h.2⟩)
  else none

/-- `InventorySystem.removeItem(slotId, quantity)`: returns the removed item
snapshot (or `null`), the final slots, and the notification count.  An invalid
index or an empty slot removes nothing; otherwise the quantity is decremented
and the slot cleared when it drops to `0` or below. -/
def removeItem (inv : List InventorySlot) (slotId q : ℤ) :
    Option Item × List InventorySlot × ℕ :=
  match getSlot? inv slotId with
  | none => (none, inv, 0)
  | some slot =>
    match slot.item with
    | none => (none, inv, 0)
    | some it =>
      let q2 := slot.quantity - q
      let slot2 := if q2 ≤ 0 then { slot with item := none, quantity := 0 }
                   else { slot with quantity := q2 }
      (some it, inv.set slotId.toNat slot2, 1)

/-- The wholesale swap branch at the end of `moveItem`: the two slots exchange
`item` and `quantity` (their `slotId` fields stay put). -/
def swapSlots (inv : List InventorySlot) (fromNat toNat : ℕ)
    (fromSlot toSlot : InventorySlot) : List InventorySlot :=
  (inv.set toNat { toSlot with
                     item := fromSlot.item
                     quantity := fromSlot.quantity }).set fromNat
    { fromSlot with item := toSlot.item, quantity := toSlot.quantity }

/-- `InventorySystem.moveItem(fromSlotId, toSlotId)`: `none` models the
uncaught `TypeError` the source throws when the destination index is out of
range while the source slot is valid and occupied (the guard checks
`!fromSlot || !fromSlot.item` but never `!toSlot`, so `toSlot.item` is read
off `undefined`).  Otherwise `some (returned boolean, final slots,
notification count)`: relocation into an empty destination, partial merge into
a same-id stackable destination with spare capacity, or a wholesale swap. -/
def moveItem (inv : List InventorySlot) (fromId toId : ℤ) :
    Option (Bool × List InventorySlot × ℕ) :=
  if fromId = toId then some (false, inv, 0)
  else
    match getSlot? inv fromId with
    | none => some (false, inv, 0)
    | some fromSlot =>
      match fromSlot.item with
      | none => some (false, inv, 0)
      | some fItem =>
        match getSlot? inv toId with
        | none => none
        | some toSlot =>
          match toSlot.item with
          | none =>
            some (true,
              (inv.set toId.toNat
                { toSlot with
                    item := some fItem
                    quantity := fromSlot.quantity }).set fromId.toNat
                { fromSlot with item := none, quantity := 0 }, 1)
          | some tItem =>
            match fItem.stackSize with
            | some s =>
              if tItem.id = fItem.id ∧ s ≠ 0 ∧ toSlot.quantity < s then
                let canMove := min fromSlot.quantity (s - toSlot.quantity)
                let q2 := fromSlot.quantity - canMove
                some (true,
                  (inv.set toId.toNat
                    { toSlot with
                      quantity := toSlot.quantity + canMove }).set fromId.toNat
                    (if q2 ≤ 0 then { fromSlot with item := none, quantity := 0 }
                     else { fromSlot with quantity := q2 }), 1)
              else
                some (true, swapSlots inv fromId.toNat toId.toNat fromSlot toSlot, 1)
            | none =>
              some (true, swapSlots inv fromId.toNat toId.toNat fromSlot toSlot, 1)

/-- Units of the item with identifier `id` held by one slot. -/
def slotCount (id : String) (s : InventorySlot) : ℤ :=
  match s.item with
  | some it => if it.id = id then s.quantity else 0
  | none => 0

/-- Total units of the item with identifier `id` across all slots. -/
def countId (id : String) (inv : List InventorySlot) : ℤ :=
  (inv.map (slotCount id)).sum

/-- Updating one slot shifts the total of each id by the difference between
the new and the old slot contents. -/
theorem countId_set (id : String) (inv : List InventorySlot) (n : ℕ)
    (s : InventorySlot) (h : n < inv.length) :
    countId id (inv.set n s) =
      countId id inv + slotCount id s - slotCount id (inv.get ⟨n, h⟩) := by
  induction inv generalizing n with
  | nil => simp at h
  | cons x xs ih =>
    cases n with
    | zero =>
      simp only [List.set, countId, List.map_cons, List.sum_cons, List.get]
      ring
    | succ m =>
      have hm : m < xs.length := by simpa using h
      simp only [List.set, countId, List.map_cons, List.sum_cons, List.get]
      have := ih m hm
      simp only [countId] at this
      rw [this]
      ring

/-- Unpacking a successful indexed read. -/
theorem getSlot?_eq {inv : List InventorySlot} {i : ℤ} {slot : InventorySlot}
    (h : getSlot? inv i = some slot) :
    ∃ hn : i.toNat < inv.length, 0 ≤ i ∧ slot = inv.get ⟨i.toNat, hn⟩ := by
  unfold getSlot? at h
  split at h
  · rename_i hcond
    exact ⟨hcond.2, hcond.1, (Option.some_injective _ h).symm⟩
  · exact absurd h (by simp)

/-- The inventory state observed after a `moveItem` call: on the crashing
`none` case the exception propagates before any slot was written, so the
slots are unchanged. -/
def moveResult (inv : List InventorySlot) (fromId toId : ℤ) :
    List InventorySlot :=
  match moveItem inv fromId toId with
  | none => inv
  | some r => r.2.1

/-- Conservation after writing the two slots of a move: reduces to a statement
about the four slot contents. -/
theorem countId_two_set (id : String) (inv : List InventorySlot) (aN bN : ℕ)
    (FS TS : InventorySlot) (ha : aN < inv.length) (hb : bN < inv.length)
    (hne : aN ≠ bN)
    (hsum : slotCount id TS + slotCount id FS =
      slotCount id (inv.get ⟨bN, hb⟩) + slotCount id (inv.get ⟨aN, ha⟩)) :
    countId id ((inv.set bN TS).set aN FS) = countId id inv := by
  have ha2 : aN < (inv.set bN TS).length := by simpa using ha
  have hget : (inv.set bN TS).get ⟨aN, ha2⟩ = inv.get ⟨aN, ha⟩ := by
    simp [List.getElem_set_ne (Ne.symm hne)]
  rw [countId_set id _ aN FS ha2, countId_set id inv bN TS hb, hget]
  omega

/-- C2: `moveItem` conserves, for every item identifier, the total quantity
summed across all slots — in the relocation, partial-merge and swap branches
as well as in every rejected call (and in the out-of-range-destination crash,
which throws before mutating anything). -/
theorem moveItem_conserves (inv : List InventorySlot) (a b : ℤ) (id : String) :
    countId id (moveResult inv a b) = countId id inv := by
  rcases hmv : moveItem inv a b with _ | r
  · simp [moveResult, hmv]
  have hres : moveResult inv a b = r.2.1 := by simp [moveResult, hmv]
  rw [hres]
  unfold moveItem at hmv
  split at hmv
  · cases hmv
    rfl
  rename_i hne
  split at hmv
  · cases hmv
    rfl
  rename_i fs hgf
  split at hmv
  · cases hmv
    rfl
  rename_i fItem hfi
  split at hmv
  · cases hmv
  rename_i ts hgt
  obtain ⟨haN, ha0, hfs⟩ := getSlot?_eq hgf
  obtain ⟨hbN, hb0, hts⟩ := getSlot?_eq hgt
  have hnats : a.toNat ≠ b.toNat := by
    intro hEq
    exact hne (by omega)
  split at hmv
  · -- destination empty: relocation
    rename_i hti
    cases hmv
    refine countId_two_set id inv a.toNat b.toNat _ _ haN hbN hnats ?_
    rw [← hfs, ← hts]
    simp only [slotCount, hfi, hti]
    split <;> simp
  rename_i tItem hti
  split at hmv
  · -- fItem.stackSize = some s
    rename_i s hss
    split at hmv
    · -- partial merge
      rename_i hc
      cases hmv
      refine countId_two_set id inv a.toNat b.toNat _ _ haN hbN hnats ?_
      rw [← hfs, ← hts]
      by_cases hq2 : fs.quantity - min fs.quantity (s - ts.quantity) ≤ 0
      · rw [if_pos hq2]
        simp only [slotCount, hfi, hti, hc.1]
        split_ifs <;> omega
      · rw [if_neg hq2]
        simp only [slotCount, hfi, hti, hc.1]
        split_ifs <;> omega
    · -- swap
      cases hmv
      refine countId_two_set id inv a.toNat b.toNat _ _ haN hbN hnats ?_
      rw [← hfs, ← hts]
      simp only [swapSlots, slotCount, hfi, hti]
      split <;> split <;> ring
  · -- fItem.stackSize = none: swap
    cases hmv
    refine countId_two_set id inv a.toNat b.toNat _ _ haN hbN hnats ?_
    rw [← hfs, ← hts]
    simp only [swapSlots, slotCount, hfi, hti]
    split <;> split <;> ring

/-- `createSampleItems()[1]`: the Health Potion, stackable to 20. -/
def healthPotion : Item := { id := "health_potion", stackSize := some 20, value := 25 }

/-- `createSampleItems()[0]`: the Iron Sword, stack size 1. -/
def ironSword : Item := { id := "sword_001", stackSize := some 1, value := 150 }

/-- A fresh inventory whose slot 0 holds one Iron Sword. -/
def swordSlotInv : List InventorySlot :=
  initInventory.set 0 { item := some ironSword, quantity := 1, slotId := 0 }

/-- C4: `moveItem(0, 40)` on a 40-slot inventory whose slot 0 is occupied
crashes (modelled as `none`): the guard checks `!fromSlot || !fromSlot.item`
but never `!toSlot`, so with a valid occupied source the code reads
`toSlot.item` off `undefined` and throws a `TypeError` instead of returning
`false`. -/
theorem moveItem_oob_destination_crashes :
    moveItem swordSlotInv 0 40 = none := by decide

/-- The C8 counterexample inventory: slot 0 holds 18 Health Potions (stack
size 20), every other slot holds an Iron Sword, so there is no empty slot. -/
def nearlyFullInv : List InventorySlot :=
  (List.range invMaxSlots).map
    (fun i => if i = 0 then ⟨some healthPotion, 18, (i : ℤ)⟩
              else ⟨some ironSword, 1, (i : ℤ)⟩)

/-- C8 (counterexample): `addItem(healthPotion, 5)` on `nearlyFullInv` tops
the existing stack up from 18 to 20 — mutating the inventory — but then finds
no empty slot for the remaining 3, returns `false`, and fires zero
`notifyInventoryChanged` calls: a state-changing call with no notification. -/
theorem addItem_mutates_without_notify :
    (addItem nearlyFullInv healthPotion 5).1 = false ∧
    (addItem nearlyFullInv healthPotion 5).2.2 = 0 ∧
    (addItem nearlyFullInv healthPotion 5).2.1 ≠ nearlyFullInv := by decide

/-- Notification behaviour of `addPlace`: one notification on success, none on
failure. -/
theorem addPlace_notify (it : Item) (q : ℤ) (inv : List InventorySlot) :
    ((addPlace it q inv).1 = true → (addPlace it q inv).2.2 = 1) ∧
    ((addPlace it q inv).1 = false → (addPlace it q inv).2.2 = 0) := by
  unfold addPlace
  split
  · split
    · exact ⟨fun _ => rfl, fun h => absurd h (by simp)⟩
    · exact ⟨fun h => absurd h (by simp), fun _ => rfl⟩
  · exact ⟨fun h => absurd h (by simp), fun _ => rfl⟩

/-- C8 (amended): every state-changing `removeItem` or `moveItem` call fires
the inventory-changed notification exactly once; `addItem` fires exactly once
when it returns `true` and — the exception the counterexample exhibits — zero
times whenever it returns `false`, even on the path that has already mutated
an existing stack before failing to place the remainder. -/
theorem notify_once_per_mutating_call :
    (∀ (inv : List InventorySlot) (i q : ℤ),
      (removeItem inv i q).2.1 ≠ inv → (removeItem inv i q).2.2 = 1) ∧
    (∀ (inv : List InventorySlot) (a b : ℤ) (r : Bool × List InventorySlot × ℕ),
      moveItem inv a b = some r → r.2.1 ≠ inv → r.2.2 = 1) ∧
    (∀ (inv : List InventorySlot) (it : Item) (q : ℤ),
      ((addItem inv it q).1 = true → (addItem inv it q).2.2 = 1) ∧
      ((addItem inv it q).1 = false → (addItem inv it q).2.2 = 0)) := by
  refine ⟨fun inv i q => ?_, fun inv a b r hmv => ?_, fun inv it q => ?_⟩
  · unfold removeItem
    split
    · intro h
      exact absurd rfl h
    · split
      · intro h
        exact absurd rfl h
      · intro _
        rfl
  · unfold moveItem at hmv
    split at hmv
    · cases hmv
      intro h
      exact absurd rfl h
    split at hmv
    · cases hmv
      intro h
      exact absurd rfl h
    split at hmv
    · cases hmv
      intro h
      exact absurd rfl h
    split at hmv
    · cases hmv
    split at hmv
    · cases hmv
      intro _
      rfl
    split at hmv
    · split at hmv <;> cases hmv <;> intro _ <;> rfl
    · cases hmv
      intro _
      rfl
  · unfold addItem
    split
    · split
      · dsimp only
        split
        · exact ⟨fun _ => rfl, fun h => absurd h (by simp)⟩
        · exact addPlace_notify _ _ _
      · exact addPlace_notify _ _ _
    · exact addPlace_notify _ _ _

/-- Witness for `notify_once_per_mutating_call`: removing the sword from slot
0 changes the inventory and notifies exactly once; moving it to empty slot 3
notifies exactly once; a failed add to the full counterexample inventory
notifies zero times. -/
theorem notify_once_per_mutating_call_witness :
    (removeItem swordSlotInv 0 1).2.2 = 1 ∧
    (addItem nearlyFullInv healthPotion 5).2.2 = 0 := by
  refine ⟨notify_once_per_mutating_call.1 swordSlotInv 0 1 (by decide), ?_⟩
  exact (notify_once_per_mutating_call.2.2 nearlyFullInv healthPotion 5).2
    (by decide)

/-- `CombatSystem.handlePlayerAttacks`' local `attackRange = 2.5`. -/
def playerAttackRange : ℚ := 5 / 2

/-- The flat damage of the player's auto-attack: `enemy.takeDamage(25)`. -/
def playerAttackDamage : ℚ := 25

/-- The player's auto-attack cooldown: the literal `1500` (ms) in
`handlePlayerAttacks`. -/
def playerAttackCooldown : ℚ := 1500

/-- Modelled from the spec: `Player.getLastAttackTime` is called by
`CombatSystem.handlePlayerAttacks` but is not declared in the captured
`src/entities/Player.ts` (it belongs to a fuller `Player` missing from the
snapshot).  Per the spec's `attacker.last_attack_time`, it reads the player's
stored last-attack timestamp, which the combat embedding threads through as an
explicit value.  Because the accessor exists, the guard
`!player.getLastAttackTime` in the source is always false, so the temporal
gate reduces to the cooldown comparison. -/
def getLastAttackTime (last : ℚ) : ℚ := last

/-- Modelled from the spec: `Player.setLastAttackTime(currentTime)` is called
by `CombatSystem.handlePlayerAttacks` but is not declared in the captured
`src/entities/Player.ts`.  Per the spec (`update last_attack_time =
current_time`), it overwrites the stored timestamp. -/
def setLastAttackTime (t : ℚ) (_last : ℚ) : ℚ := t

/-- `CombatSystem.handlePlayerAttacks(player)`: walk the enemy list in order;
skip dead enemies; for each live enemy within `attackRange` of the (fixed)
player position, if the cooldown has elapsed since the stored last-attack
time, apply 25 damage and store the current time.  `now` is the `Date.now()`
value (read per iteration in the source; within one call the same tick
produces the same value).  Returns the final last-attack time, the final
enemy list, and the number of attacks applied. -/
def handleAttacks (ppos : Vec3) (now : ℚ) : ℚ → List Enemy → ℚ × List Enemy × ℕ
  | last, [] => (last, [], 0)
  | last, e :: es =>
    if e.isAlive = false then
      let r := handleAttacks ppos now last es
      (r.1, e :: r.2.1, r.2.2)
    else if distSq ppos e.position ≤ playerAttackRange ^ 2 then
      if playerAttackCooldown ≤ now - getLastAttackTime last then
        let r := handleAttacks ppos now (setLastAttackTime now last) es
        (r.1, enemyTakeDamage playerAttackDamage e :: r.2.1, r.2.2 + 1)
      else
        let r := handleAttacks ppos now last es
        (r.1, e :: r.2.1, r.2.2)
    else
      let r := handleAttacks ppos now last es
      (r.1, e :: r.2.1, r.2.2)

/-- Relation between an enemy before and after one `handlePlayerAttacks`
call entered with last-attack time `last`: either untouched, or it was alive,
within attack range, the cooldown had elapsed relative to `last`, and it took
the flat 25 damage. -/
def attackedRel (ppos : Vec3) (now last : ℚ) (e e2 : Enemy) : Prop :=
  e2 = e ∨
    (e.isAlive = true ∧ distSq ppos e.position ≤ playerAttackRange ^ 2 ∧
      playerAttackCooldown ≤ now - last ∧
      e2 = enemyTakeDamage playerAttackDamage e)

/-- Per-call behaviour of `handlePlayerAttacks`: the attack count determines
the final last-attack time; a fired call proves the cooldown gate held at
entry; at most one attack fires per call; and every enemy is either untouched
or was attacked through both gates. -/
theorem handleAttacks_step (ppos : Vec3) (now last : ℚ) (es : List Enemy) :
    ((handleAttacks ppos now last es).2.2 = 0 →
      (handleAttacks ppos now last es).1 = last) ∧
    (1 ≤ (handleAttacks ppos now last es).2.2 →
      (handleAttacks ppos now last es).1 = now ∧
        playerAttackCooldown ≤ now - last) ∧
    (handleAttacks ppos now last es).2.2 ≤ 1 ∧
    List.Forall₂ (attackedRel ppos now last) es
      (handleAttacks ppos now last es).2.1 := by
  induction es generalizing last with
  | nil =>
    exact ⟨fun _ => rfl, fun h => absurd h (by simp [handleAttacks]),
      by simp [handleAttacks], by simp [handleAttacks]⟩
  | cons e es ih =>
    by_cases hAlive : e.isAlive = false
    · simp only [handleAttacks, if_pos hAlive]
      obtain ⟨h0, h1, hle, hF⟩ := ih last
      exact ⟨h0, h1, hle, List.Forall₂.cons (Or.inl rfl) hF⟩
    · have hAliveT : e.isAlive = true := by
        revert hAlive
        cases e.isAlive <;> simp
      by_cases hDist : distSq ppos e.position ≤ playerAttackRange ^ 2
      · by_cases hCd : playerAttackCooldown ≤ now - getLastAttackTime last
        · simp only [handleAttacks, if_neg hAlive, if_pos hDist, if_pos hCd,
            setLastAttackTime]
          obtain ⟨h0, h1, hle, hF⟩ := ih now
          have hz : (handleAttacks ppos now now es).2.2 = 0 := by
            by_contra hnz
            have := (h1 (by omega)).2
            simp only [playerAttackCooldown] at this
            linarith
          have hCd2 : playerAttackCooldown ≤ now - last := by
            simpa [getLastAttackTime] using hCd
          refine ⟨fun hc => by omega, fun _ => ⟨h0 hz, hCd2⟩, by omega, ?_⟩
          refine List.Forall₂.cons (Or.inr ⟨hAliveT, hDist, hCd2, rfl⟩) ?_
          refine hF.imp ?_
          rintro x y (rfl | ⟨_, _, hbad, _⟩)
          · exact Or.inl rfl
          · exfalso
            simp only [playerAttackCooldown] at hbad
            linarith
        · simp only [handleAttacks, if_neg hAlive, if_pos hDist, if_neg hCd]
          obtain ⟨h0, h1, hle, hF⟩ := ih last
          exact ⟨h0, h1, hle, List.Forall₂.cons (Or.inl rfl) hF⟩
      · simp only [handleAttacks, if_neg hAlive, if_neg hDist]
        obtain ⟨h0, h1, hle, hF⟩ := ih last
        exact ⟨h0, h1, hle, List.Forall₂.cons (Or.inl rfl) hF⟩

/-- A sequence of `handlePlayerAttacks` calls: each tick supplies the
`Date.now()` timestamp and the player's current position; the last-attack
time and the enemy list evolve from call to call.  Returns the per-call
attack counts. -/
def runAttacks : ℚ → List Enemy → List (ℚ × Vec3) → List ℕ
  | _, _, [] => []
  | last, es, (t, ppos) :: ticks =>
    (handleAttacks ppos t last es).2.2 ::
      runAttacks (handleAttacks ppos t last es).1
        (handleAttacks ppos t last es).2.1 ticks

/-- The stored last-attack time never decreases across a call. -/
theorem handleAttacks_last_mono (ppos : Vec3) (now last : ℚ) (es : List Enemy) :
    last ≤ (handleAttacks ppos now last es).1 := by
  obtain ⟨h0, h1, _, _⟩ := handleAttacks_step ppos now last es
  rcases Nat.eq_zero_or_pos (handleAttacks ppos now last es).2.2 with hz | hp
  · rw [h0 hz]
  · obtain ⟨he, hcd⟩ := h1 hp
    rw [he]
    have : (0 : ℚ) < playerAttackCooldown := by norm_num [playerAttackCooldown]
    linarith

/-- Any fired call in a run happens at least one cooldown after the
last-attack time the run started with. -/
theorem runAttacks_fired_ge (ticks : List (ℚ × Vec3)) :
    ∀ (last : ℚ) (es : List Enemy) (j : ℕ) (c : ℕ) (t : ℚ) (v : Vec3),
      (runAttacks last es ticks).get? j = some c → ticks.get? j = some (t, v) →
      1 ≤ c → last + playerAttackCooldown ≤ t := by
  induction ticks with
  | nil =>
    intro last es j c t v hc ht hfired
    simp [runAttacks] at hc
  | cons tick ticks ih =>
    intro last es j c t v hc ht hfired
    obtain ⟨t0, p0⟩ := tick
    cases j with
    | zero =>
      simp only [runAttacks, List.get?] at hc ht
      obtain ⟨rfl, rfl⟩ := Prod.mk.inj (Option.some_injective _ ht)
      have hcc := Option.some_injective _ hc
      rw [← hcc] at hfired
      have := ((handleAttacks_step p0 t0 last es).2.1 hfired).2
      linarith
    | succ k =>
      simp only [runAttacks, List.get?] at hc ht
      have hrec := ih (handleAttacks p0 t0 last es).1
        (handleAttacks p0 t0 last es).2.1 k c t v hc ht hfired
      have := handleAttacks_last_mono p0 t0 last es
      linarith

/-- Two fired calls in a run are at least one cooldown apart. -/
theorem runAttacks_spacing (ticks : List (ℚ × Vec3)) :
    ∀ (last : ℚ) (es : List Enemy) (i j : ℕ) (ci cj : ℕ) (ti tj : ℚ)
      (vi vj : Vec3),
      i < j →
      (runAttacks last es ticks).get? i = some ci →
      ticks.get? i = some (ti, vi) →
      (runAttacks last es ticks).get? j = some cj →
      ticks.get? j = some (tj, vj) →
      1 ≤ ci → 1 ≤ cj → ti + playerAttackCooldown ≤ tj := by
  induction ticks with
  | nil =>
    intro last es i j ci cj ti tj vi vj hij hci hti hcj htj hfi hfj
    simp [runAttacks] at hci
  | cons tick ticks ih =>
    intro last es i j ci cj ti tj vi vj hij hci hti hcj htj hfi hfj
    obtain ⟨t0, p0⟩ := tick
    cases i with
    | zero =>
      cases j with
      | zero => omega
      | succ k =>
        simp only [runAttacks, List.get?] at hci hti hcj htj
        obtain ⟨rfl, rfl⟩ := Prod.mk.inj (Option.some_injective _ hti)
        have hcc := Option.some_injective _ hci
        rw [← hcc] at hfi
        have hlast : (handleAttacks p0 t0 last es).1 = t0 :=
          ((handleAttacks_step p0 t0 last es).2.1 hfi).1
        have hrec := runAttacks_fired_ge ticks (handleAttacks p0 t0 last es).1
          (handleAttacks p0 t0 last es).2.1 k cj tj vj hcj htj hfj
        rw [hlast] at hrec
        exact hrec
    | succ m =>
      cases j with
      | zero => omega
      | succ k =>
        simp only [runAttacks, List.get?] at hci hti hcj htj
        exact ih (handleAttacks p0 t0 last es).1
          (handleAttacks p0 t0 last es).2.1 m k ci cj ti tj vi vj
          (by omega) hci hti hcj htj hfi hfj

/-- C3: the player auto-attack in `CombatSystem.handlePlayerAttacks` fires on
an enemy only when both gates hold — the enemy was alive and within the
attack range `2.5` of the player, and at least the 1500 ms cooldown had
elapsed since the stored last-attack time (`attackedRel`).  On any call that
fires, the stored last-attack time becomes `now` and the entry gate
`1500 ≤ now - last` held; a non-firing call leaves the time unchanged; at
most one attack fires per call; and across any sequence of calls, two fired
calls are at least 1500 ms apart. -/
theorem player_attack_cooldown_gating (ppos : Vec3) (now last : ℚ)
    (es : List Enemy) :
    List.Forall₂ (attackedRel ppos now last) es
      (handleAttacks ppos now last es).2.1 ∧
    (1 ≤ (handleAttacks ppos now last es).2.2 →
      (handleAttacks ppos now last es).1 = now ∧
        playerAttackCooldown ≤ now - last) ∧
    ((handleAttacks ppos now last es).2.2 = 0 →
      (handleAttacks ppos now last es).1 = last) ∧
    (handleAttacks ppos now last es).2.2 ≤ 1 ∧
    (∀ (ticks : List (ℚ × Vec3)) (i j ci cj : ℕ) (ti tj : ℚ) (vi vj : Vec3),
      i < j →
      (runAttacks last es ticks).get? i = some ci →
      ticks.get? i = some (ti, vi) →
      (runAttacks last es ticks).get? j = some cj →
      ticks.get? j = some (tj, vj) →
      1 ≤ ci → 1 ≤ cj → ti + playerAttackCooldown ≤ tj) := by
  obtain ⟨h0, h1, hle, hF⟩ := handleAttacks_step ppos now last es
  exact ⟨hF, h1, h0, hle,
    fun ticks i j ci cj ti tj vi vj hij hci hti hcj htj hfi hfj =>
      runAttacks_spacing ticks last es i j ci cj ti tj vi vj hij hci hti hcj
        htj hfi hfj⟩

/-- Witness for `player_attack_cooldown_gating`: one enemy 1 unit away, calls
at times 2000, 2500 and 4000 ms starting from last-attack time 0.  The first
and third calls fire (the second is inside the cooldown), and the theorem
yields the 1500 ms spacing between the two fired calls. -/
theorem player_attack_cooldown_gating_witness :
    List.Forall₂ (attackedRel ⟨0, 0, 0⟩ 2000 0) [mkEnemy ⟨1, 0, 0⟩]
      (handleAttacks ⟨0, 0, 0⟩ 2000 0 [mkEnemy ⟨1, 0, 0⟩]).2.1 ∧
    (2000 : ℚ) + playerAttackCooldown ≤ 4000 := by
  have hrun : runAttacks 0 [mkEnemy ⟨1, 0, 0⟩]
      [(2000, ⟨0, 0, 0⟩), (2500, ⟨0, 0, 0⟩), (4000, ⟨0, 0, 0⟩)] = [1, 0, 1] := by
    norm_num [runAttacks, handleAttacks, enemyTakeDamage, distSq, Vec3.normSq,
      Vec3.sub, mkEnemy, playerAttackRange, playerAttackCooldown,
      playerAttackDamage, getLastAttackTime, setLastAttackTime]
  have h := player_attack_cooldown_gating ⟨0, 0, 0⟩ 2000 0 [mkEnemy ⟨1, 0, 0⟩]
  refine ⟨h.1, ?_⟩
  exact h.2.2.2.2
    [(2000, ⟨0, 0, 0⟩), (2500, ⟨0, 0, 0⟩), (4000, ⟨0, 0, 0⟩)]
    0 2 1 1 2000 4000 ⟨0, 0, 0⟩ ⟨0, 0, 0⟩ (by norm_num)
    (by rw [hrun]; rfl) rfl (by rw [hrun]; rfl) rfl (by norm_num) (by norm_num)

/-- C6 (counterexample): the code has no `calculate_damage` and no critical
luck draw at all; a player attack that fires always applies the flat 25.
With one full-health (50) enemy in range and the cooldown elapsed, the
enemy's health afterwards is `25 = 50 - 25` — not `5 = 50 - 45` (the claim's
guaranteed critical `floor(30 × 1.5)` at `crit_chance = 1.0`) and not
`20 = 50 - 30` (the claim's non-critical base 30). -/
theorem attack_damage_not_crit :
    ((handleAttacks ⟨0, 0, 0⟩ 2000 0 [mkEnemy ⟨1, 0, 0⟩]).2.1.map
      Enemy.health) = [25] ∧
    (25 : ℚ) ≠ 50 - 45 ∧ (25 : ℚ) ≠ 50 - 30 := by
  refine ⟨?_, by norm_num, by norm_num⟩
  norm_num [handleAttacks, enemyTakeDamage, distSq, Vec3.normSq, Vec3.sub,
    mkEnemy, playerAttackRange, playerAttackCooldown, playerAttackDamage,
    getLastAttackTime]

/-- C6 (amended): player attack damage is deterministic and flat — the
embedding of `handlePlayerAttacks` takes no random input, and every enemy is
either untouched or hit by `takeDamage(25)` exactly; no hit is ever marked
critical (no such state exists in the code). -/
theorem attack_damage_flat (ppos : Vec3) (now last : ℚ) (es : List Enemy) :
    playerAttackDamage = 25 ∧
    List.Forall₂ (fun e e2 => e2 = e ∨ e2 = enemyTakeDamage 25 e) es
      (handleAttacks ppos now last es).2.1 := by
  refine ⟨rfl, ?_⟩
  refine (handleAttacks_step ppos now last es).2.2.2.imp ?_
  rintro x y (rfl | ⟨_, _, _, rfl⟩)
  · exact Or.inl rfl
  · exact Or.inr rfl
